import Mathlib

/-!
Verification of the ia2 creative-coding library against its specification.

Each Python module is embedded shallowly: pure computations become Lean
functions over `Nat`, `Int` and `Rat`; stateful objects become explicit
state-passing on Lean structures; Python exceptions become `Except`/`Option`
results; effect-performing loops are embedded as functions that return the
trace of effects they would perform.  Python's `int()` truncation is
`pyInt`, Python's slice `l[start:end]` is `pySlice`.
-/

/-- Python's `int()` applied to a rational: truncation toward zero. -/
def pyInt (q : ℚ) : ℤ :=
  if 0 ≤ q then ⌊q⌋ else ⌈q⌉

/-- Python's `l[start:end]` slice with a non-negative `start` and an optional
`end` (`None` becomes `Option.none`). -/
def pySlice {α : Type} (start : ℕ) (stop : Option ℕ) (l : List α) : List α :=
  match stop with
  | none => l.drop start
  | some e => (l.take e).drop start

namespace Ctx

/-!
Embedding of `ia2/context.py`, class `FfmpegProxy`.

The proxy's observable state is the part counter, the per-part frame cap
(`max_frames`, set to `60 * 60` in `__init__`), the running frame counter,
whether an encoder process is open (`writing_process is not None`), and for
each part opened so far the number of raw frames that were piped into it
(`partFrames`, in part order; the Python object only stores the part file
names, the per-part frame tally is the quantity the spec's invariant is
about).
-/
structure FfmpegProxy where
  part_number : ℕ
  max_frames : ℕ
  frame_count : ℕ
  writing : Bool
  partFrames : List ℕ
deriving DecidableEq, Repr

/-- State of a freshly constructed `FfmpegProxy` with frame cap `cap`
(`__init__`: `part_number = 0`, `frame_count = 0`, no process, no parts). -/
def FfmpegProxy.init (cap : ℕ) : FfmpegProxy :=
  ⟨0, cap, 0, false, []⟩

/-- `FfmpegProxy.start_process`: opens a new part (appends a part holding no
frames yet), bumps `part_number`, resets `frame_count` to 0 and marks the
encoder process as open. -/
def FfmpegProxy.start_process (p : FfmpegProxy) : FfmpegProxy :=
  { p with
    part_number := p.part_number + 1
    frame_count := 0
    writing := true
    partFrames := p.partFrames ++ [0] }

/-- `FfmpegProxy.stop_process`: closes the encoder process if one is open. -/
def FfmpegProxy.stop_process (p : FfmpegProxy) : FfmpegProxy :=
  { p with writing := false }

/-- Increment the last entry of a list (one more frame piped into the most
recently opened part). -/
def bumpLast : List ℕ → List ℕ
  | [] => []
  | [x] => [x + 1]
  | x :: y :: xs => x :: bumpLast (y :: xs)

/-- `FfmpegProxy.write`: increment `frame_count`; on `frame_count >
max_frames` stop the current encoder and start a new part; lazily start a
process if none is open; finally pipe the frame into the currently open
part. -/
def FfmpegProxy.write (p : FfmpegProxy) : FfmpegProxy :=
  let p1 : FfmpegProxy := { p with frame_count := p.frame_count + 1 }
  let p2 : FfmpegProxy :=
    if p1.max_frames < p1.frame_count then p1.stop_process.start_process else p1
  let p3 : FfmpegProxy := if p2.writing = false then p2.start_process else p2
  { p3 with partFrames := bumpLast p3.partFrames }

/-- Run `n` successive `write` calls. -/
def FfmpegProxy.writes (p : FfmpegProxy) : ℕ → FfmpegProxy
  | 0 => p
  | n + 1 => (p.writes n).write

/-- `FfmpegProxy.combine_parts` chooses a finalization action from the number
of recorded parts: none → warning only, one → rename, several → concat. -/
inductive FinalizeAction where
  | warnNoParts
  | rename
  | concat
deriving DecidableEq, Repr

/-- `FfmpegProxy.combine_parts`: dispatch on the number of parts. -/
def FfmpegProxy.combine_parts (p : FfmpegProxy) : FinalizeAction :=
  if p.partFrames.length = 0 then .warnNoParts
  else if p.partFrames.length = 1 then .rename
  else .concat

end Ctx

namespace Frames

/-!
Embedding of `ia2/frames.py`.

The frame loop performs drawing-state and sink effects; the embedding
returns the trace of those effects.  The session-variant classes of
`ia2/types.py` that the `isinstance` dispatch in `wait` and `save_frame`
distinguishes become the tag type `SessionKind`.
-/
/-- Session variants from `ia2/types.py` that the frame helpers dispatch on. -/
inductive SessionKind where
  | animation
  | animationSequence
  | image
  | interactive
  | interactiveAnimation
  | openGLInteractive
  | openGLInteractiveAnimation
deriving DecidableEq, Repr

/-- Effects performed by one pass of the `frames` generator loop. -/
inductive FrameEvent where
  | ctxSave
  | paintBackground
  | yieldFrame (k : ℕ)
  | ctxRestore
  | saveFrame
deriving DecidableEq, Repr

/-- The body of one iteration of the `frames` loop for frame number `k`:
save the drawing state, paint the background, yield to the caller's drawing
code, restore the state and save the frame to the output. -/
def frameBlock (k : ℕ) : List FrameEvent :=
  [.ctxSave, .paintBackground, .yieldFrame k, .ctxRestore, .saveFrame]

/-- `frames(anim, time)`: iterate the frame block for
`range(int(time * anim.fps))`.  The trace depends only on the duration and
the frame rate, never on wall-clock time. -/
def frames (fps : ℕ) (time : ℚ) : List FrameEvent :=
  (List.range (pyInt (time * fps)).toNat).flatMap frameBlock

/-- Effects performed by `wait`. -/
inductive WaitEvent where
  | writeFrame (data : ℕ)
  | sleepFor (seconds : ℚ)
deriving DecidableEq, Repr

/-- `wait(anim, seconds)`: `Animation`/`AnimationSequence` write the current
surface bytes `int(seconds * fps)` times; `Interactive` sleeps;
`InteractiveAnimation` writes the frames and then also sleeps; the remaining
variants fall through all the `isinstance` branches and do nothing. -/
def wait (kind : SessionKind) (fps : ℕ) (surfaceData : ℕ) (seconds : ℚ) :
    List WaitEvent :=
  match kind with
  | .animation => List.replicate (pyInt (seconds * fps)).toNat (.writeFrame surfaceData)
  | .animationSequence =>
      List.replicate (pyInt (seconds * fps)).toNat (.writeFrame surfaceData)
  | .interactive => [.sleepFor seconds]
  | .interactiveAnimation =>
      List.replicate (pyInt (seconds * fps)).toNat (.writeFrame surfaceData) ++
        [.sleepFor seconds]
  | _ => []

/-!
Embedding of `render_frames` from `ia2/frames.py` (claim C3).

An animation element is a Python generator stepped once per frame with
`next`; the generator for element `e` yields normally on its first
`stopAt - 1` invocations and raises `StopIteration` from invocation
`stopAt` on.  `calls` is the number of `next` calls made so far, the
suspended generator state.
-/
structure PyElement where
  eid : ℕ
  stopAt : ℕ
  calls : ℕ
deriving DecidableEq, Repr

/-- One `next(element)` call: advance the generator state and report whether
it raised `StopIteration` (its `calls + 1`-st invocation reached `stopAt`). -/
def stepElement (e : PyElement) : PyElement × Bool :=
  ({ e with calls := e.calls + 1 }, decide (e.stopAt ≤ e.calls + 1))

/-- The body of one frame of `render_frames`: step every element exactly
once, collect the ones that raised `StopIteration` in `removed`, and remove
them from the collection only after the full pass. -/
def framePass (l : List PyElement) : List PyElement :=
  ((l.map stepElement).filter (fun p => ! p.2)).map Prod.fst

/-- `render_frames(anim, length, elements)` restricted to its element
lifecycle behaviour: returns, for each frame, the ids of the elements that
were stepped during that frame, together with the final collection. -/
def render_frames : ℕ → List PyElement → List (List ℕ) × List PyElement
  | 0, l => ([], l)
  | n + 1, l =>
    let r := render_frames n (framePass l)
    ((l.map PyElement.eid) :: r.1, r.2)

end Frames

namespace Audio

/-!
Embedding of `ia2/audio.py`.

The sample buffers are `numpy` float arrays; the embedding uses exact
rationals (`List ℚ`), which preserves the arithmetic structure the claims
are about (which coefficients are applied to which indices), and models the
non-finite values float division by zero produces with `Option.none`.
`at0 l j` is `l[j]` with numpy's in-range reads (out-of-range reads do not
occur in the loops below); `0.2` is the rational `1/5`.
-/
/-- Read index `j` of a buffer (all reads in the embedded loops are in
range, so the default is never observed). -/
def at0 (l : List ℚ) (j : ℕ) : ℚ :=
  l.getD j 0

/-- One iteration of the reverb loop:
`wav_file[i + delay] = wav_file[i + delay] + wav_file[i] * decay`. -/
def reverbStep (delay : ℕ) (decay : ℚ) (b : List ℚ) (i : ℕ) : List ℚ :=
  b.set (i + delay) (b.getD (i + delay) 0 + b.getD i 0 * decay)

/-- The reverb loop run for the first `k` indices, in increasing order. -/
def reverbLoop (delay : ℕ) (decay : ℚ) (b : List ℚ) (k : ℕ) : List ℚ :=
  (List.range k).foldl (reverbStep delay decay) b

/-- `reverb(seq, delay, decay)`: converts `delay` to a sample count
`int(rate * delay)`, then OVERWRITES the supplied decay with the constant
`0.2` (line 206 of `audio.py`: `decay = 0.2`), then runs the in-place
forward loop over `range(len - delay)`. -/
def reverb (wav_file : List ℚ) (delay decay : ℚ) (rate : ℕ) : List ℚ :=
  reverbLoop (pyInt (rate * delay)).toNat (1 / 5) wav_file
    (wav_file.length - (pyInt (rate * delay)).toNat)

/-- `np.max(np.abs(data), axis=0)`: the peak absolute amplitude of the
buffer (the buffers in the library are non-empty, so folding from 0 agrees
with numpy's maximum of the absolute values). -/
def npMaxAbs (data : List ℚ) : ℚ :=
  data.foldl (fun m x => max m |x|) 0

/-- Float division as numpy performs it element-wise: a zero divisor does
not raise, it yields a non-finite value (NaN for the 0/0 entries of a
zero-peak normalization), modelled as `none`. -/
def fdiv (a b : ℚ) : Option ℚ :=
  if b = 0 then none else some (a / b)

/-- Modelled from the spec: the per-index gain of `fade_in_out` from
`ia2/wave_table.py`, whose source is not under src/.  The spec requires
fade-in/fade-out windows at both ends: the gain ramps 0→1 across the first
`fadeLen` samples, is 1 in the interior, and ramps back to 0 across the
last `fadeLen` samples. -/
def rampFactor (n fadeLen i : ℕ) : ℚ :=
  min 1 (min ((i : ℚ) / fadeLen) (((n - 1 - i : ℕ) : ℚ) / fadeLen))

/-- Modelled from the spec: `fade_in_out` applies the ramp gain at both
ends of the buffer (length preserved, interior unchanged). -/
def fade_in_out (data : List ℚ) (fadeLen : ℕ := 2000) : List ℚ :=
  data.mapIdx (fun i x => rampFactor data.length fadeLen i * x)

/-- `fade_in_out` acting on a buffer that may already hold non-finite
values: scaling a NaN keeps it a NaN. -/
def fade_in_outF (data : List (Option ℚ)) (fadeLen : ℕ := 2000) :
    List (Option ℚ) :=
  data.mapIdx (fun i x => x.map (fun q => rampFactor data.length fadeLen i * q))

/-- Finalization of the `wav` context manager (`audio.py` lines 22–24):
`data /= np.max(np.abs(data), axis=0)` — the division is unconditional,
with no zero-peak guard — then `data = fade_in_out(data)`. -/
def wavFinalize (data : List ℚ) : List (Option ℚ) :=
  fade_in_outF (data.map (fun x => fdiv x (npMaxAbs data)))

end Audio

namespace Ctx

/-- Audio finalization of `ffmpeg_wav` (`context.py` lines 137–140, and
identically in the pygame/opengl recording context managers):
`if max_val != 0: data /= max_val`, then `fade_in_out`.  This path guards
the zero-peak case. -/
def ffmpeg_wav_finalize (data : List ℚ) : List ℚ :=
  Audio.fade_in_out
    (if Audio.npMaxAbs data ≠ 0
      then data.map (fun x => x / Audio.npMaxAbs data) else data)

end Ctx

namespace Scene

/-!
Embedding of `ia2/scene.py`, class `ViewOrderList2.__iter__`.

The per-entity sort key is a Python float that may also be `math.inf` or
`-math.inf`; the embedding is the type `XKey K` over an ordered field `K`
of finite sample values (`K = ℚ` for concrete evaluation, `K = ℝ` when the
key comes from the trigonometric rotation).  Python's `sorted` is a stable
sort by the precomputed key, embedded as `List.mergeSort` (also stable)
with the key comparison `keyLe`; the `[start:end]` slice on the sorted
list is `pySlice`.
-/
/-- A sort key: `-math.inf`, a finite value, or `math.inf`. -/
inductive XKey (K : Type) where
  | neginf
  | fin (x : K)
  | posinf
deriving DecidableEq, Repr

/-- Comparison of sort keys, exactly the float order with infinities. -/
def keyLe {K : Type} [LinearOrder K] : XKey K → XKey K → Bool
  | .neginf, _ => true
  | _, .posinf => true
  | .posinf, _ => false
  | .fin a, .fin b => decide (a ≤ b)
  | .fin _, .neginf => false

/-- An orderable entity: identity plus the optional 3d point list
(`e.points3d` may be `None`, empty, or non-empty). -/
structure Entity (K : Type) where
  eid : ℕ
  points3d : Option (List (K × K × K))
deriving DecidableEq, Repr

/-- `np.dot` of two 3-vectors. -/
def dot3 {K : Type} [Mul K] [Add K] (a b : K × K × K) : K :=
  a.1 * b.1 + a.2.1 * b.2.1 + a.2.2 * b.2.2

/-- `statistics.mean` of a (non-empty) list. -/
def pyMean {K : Type} [DivisionRing K] (l : List K) : K :=
  l.sum / l.length

/-- The sort key `ViewOrderList2.__iter__` assigns to an entity: `math.inf`
when `points3d is None`, `-math.inf` when the point list is empty, and
otherwise `fn` of the projections of its points onto the view vector `Y`. -/
def projKey {K : Type} [Mul K] [Add K] (fn : List K → K) (Y : K × K × K)
    (e : Entity K) : XKey K :=
  match e.points3d with
  | none => .posinf
  | some [] => .neginf
  | some ps => .fin (fn (ps.map (fun x => dot3 x Y)))

/-- The sequence produced by `ViewOrderList2.__iter__` given the projected
view vector `Y`: stable-sort the entities by their key, then apply the
`[start:end]` slice. -/
def ViewOrderList2_iter {K : Type} [LinearOrder K] [Mul K] [Add K]
    (fn : List K → K) (Y : K × K × K) (start : ℕ) (stop : Option ℕ)
    (elements : List (Entity K)) : List (Entity K) :=
  pySlice start stop
    (elements.mergeSort (fun a b => keyLe (projKey fn Y a) (projKey fn Y b)))

/-!
Rotation-building in `ViewOrderList2.__iter__` (claim C7).

`scipy.spatial.transform.Rotation.from_euler` with a lowercase (extrinsic)
axis string applies the rotations about the fixed axes in sequence order,
so the composite matrix (acting on column vectors) is `R_third * R_second *
R_first`; `Rotation.inv` is the inverse rotation, the transpose of the
orthogonal matrix; `.apply(v)` is matrix-times-vector.
-/
/-- Rotation about the x axis by `a` (column-vector convention). -/
noncomputable def Rx (a : ℝ) : Matrix (Fin 3) (Fin 3) ℝ :=
  !![1, 0, 0; 0, Real.cos a, -Real.sin a; 0, Real.sin a, Real.cos a]

/-- Rotation about the y axis by `a`. -/
noncomputable def Ry (a : ℝ) : Matrix (Fin 3) (Fin 3) ℝ :=
  !![Real.cos a, 0, Real.sin a; 0, 1, 0; -Real.sin a, 0, Real.cos a]

/-- Rotation about the z axis by `a`. -/
noncomputable def Rz (a : ℝ) : Matrix (Fin 3) (Fin 3) ℝ :=
  !![Real.cos a, -Real.sin a, 0; Real.sin a, Real.cos a, 0; 0, 0, 1]

/-- The rotation matrix `ViewOrderList2.__iter__` builds from the Scene's
three angles: `"yxz"` and `"zxy"` have dedicated branches; EVERY other
value of `rotation_order` — including the remaining axis permutations
`"xzy"`, `"yzx"` and `"zyx"` — falls into the `else` branch, which builds
the `"xyz"` rotation.  (A missing `rotation_order` key defaults to
`"xyz"`, also the else branch.) -/
noncomputable def sceneRotation (order : String) (ax ay az : ℝ) :
    Matrix (Fin 3) (Fin 3) ℝ :=
  if order = "yxz" then Rz az * Rx ax * Ry ay
  else if order = "zxy" then Ry ay * Rx ax * Rz az
  else Rz az * Ry ay * Rx ax

/-- Modelled from the spec: "build a 3-axis rotation (order selectable
among the six axis permutations) from the Scene's three angles" — the
extrinsic Euler rotation built in exactly the named axis order for each of
the six permutations, each angle fed with its own axis. -/
noncomputable def eulerRotationInOrder (order : String) (ax ay az : ℝ) :
    Matrix (Fin 3) (Fin 3) ℝ :=
  if order = "xyz" then Rz az * Ry ay * Rx ax
  else if order = "xzy" then Ry ay * Rz az * Rx ax
  else if order = "yxz" then Rz az * Rx ax * Ry ay
  else if order = "yzx" then Rx ax * Rz az * Ry ay
  else if order = "zxy" then Ry ay * Rx ax * Rz az
  else Rx ax * Ry ay * Rz az

/-- The projected view vector `Y = rotation.inv().apply([0, 0, -1])` of
`ViewOrderList2.__iter__`, as the point triple the dot-product ranking
uses. -/
noncomputable def viewVecTriple (order : String) (ax ay az : ℝ) : ℝ × ℝ × ℝ :=
  ((sceneRotation order ax ay az).transpose.mulVec ![0, 0, -1] 0,
    (sceneRotation order ax ay az).transpose.mulVec ![0, 0, -1] 1,
    (sceneRotation order ax ay az).transpose.mulVec ![0, 0, -1] 2)

/-- The same view vector built from the spec's all-six-orders rotation. -/
noncomputable def specViewVecTriple (order : String) (ax ay az : ℝ) :
    ℝ × ℝ × ℝ :=
  ((eulerRotationInOrder order ax ay az).transpose.mulVec ![0, 0, -1] 0,
    (eulerRotationInOrder order ax ay az).transpose.mulVec ![0, 0, -1] 1,
    (eulerRotationInOrder order ax ay az).transpose.mulVec ![0, 0, -1] 2)

/-- The key `ViewOrderList2.__iter__` ranks an entity by, at the scene
level: the generic projection key taken at the code's view vector. -/
noncomputable def realViewKey (order : String) (ax ay az : ℝ)
    (fn : List ℝ → ℝ) (e : Entity ℝ) : XKey ℝ :=
  projKey fn (viewVecTriple order ax ay az) e

/-- The entity key the spec's description prescribes (rotation built in
exactly the named order). -/
noncomputable def specViewKey (order : String) (ax ay az : ℝ)
    (fn : List ℝ → ℝ) (e : Entity ℝ) : XKey ℝ :=
  projKey fn (specViewVecTriple order ax ay az) e

end Scene

namespace Types

/-!
Embedding of `Element.__getitem__` from `ia2/types.py` (claim C10).
-/
/-- The three fields `Element.__getitem__` exposes by index. -/
structure Element where
  name : String
  generator : ℕ
  visible : Bool
deriving DecidableEq, Repr

/-- A value returned by `Element.__getitem__`. -/
inductive PyVal where
  | str (s : String)
  | gen (g : ℕ)
  | bool (b : Bool)
deriving DecidableEq, Repr

/-- `Element.__getitem__(key)`: keys 0, 1, 2 return the name, the
generator and the visibility flag; every other key raises
`IndexError("Index out of range")` (there is no negative-index handling). -/
def Element.getitem (e : Element) (key : ℤ) : Except String PyVal :=
  if key = 0 then .ok (.str e.name)
  else if key = 1 then .ok (.gen e.generator)
  else if key = 2 then .ok (.bool e.visible)
  else .error "Index out of range"

end Types

namespace Audio

/-- The sample data types `load_wav_file` dispatches on. -/
inductive Dtype where
  | int16
  | int32
  | uint8
  | float32
  | float64
  | other (name : String)
deriving DecidableEq, Repr

/-- The dtype-dispatch of `load_wav_file`: scale integer formats into
`[-1, 1]`, clip float formats, and raise
`ValueError(f"Unsupported audio data type: {dtype}")` for anything else. -/
def convertAudio (dtype : Dtype) (samples : List ℚ) : Except String (List ℚ) :=
  match dtype with
  | .int16 => .ok (samples.map (fun x => x / 32768))
  | .int32 => .ok (samples.map (fun x => x / 2147483648))
  | .uint8 => .ok (samples.map (fun x => (x - 128) / 128))
  | .float32 => .ok (samples.map (fun x => max (-1) (min 1 x)))
  | .float64 => .ok (samples.map (fun x => max (-1) (min 1 x)))
  | .other n => .error ("Unsupported audio data type: " ++ n)

/-- What `load_wav_file` does at its caller boundary: either return a value
or let an exception escape. -/
inductive LoadResult where
  | returned (result : Option (List ℚ × ℕ))
  | raised (msg : String)
deriving DecidableEq, Repr

/-- `load_wav_file` (mono input): the whole body — including the
`ValueError` raised for an unsupported dtype — sits inside
`try: ... except Exception: print/traceback; return None, None`, so every
failure is caught and the caller receives the `(None, None)` placeholder;
no exception ever escapes to the caller. -/
def load_wav_file (dtype : Dtype) (samples : List ℚ) (rate : ℕ) : LoadResult :=
  match convertAudio dtype samples with
  | .ok audio => .returned (some (audio, rate))
  | .error _ => .returned none

/-- Whether a call outcome is an exception escaping to the caller. -/
def raisesToCaller : LoadResult → Bool
  | .raised _ => true
  | .returned _ => false

end Audio

theorem pyInt_of_nonneg (q : ℚ) (h : 0 ≤ q) : pyInt q = ⌊q⌋ := by
  simp [pyInt, h]

namespace Ctx

theorem bumpLast_append_singleton (xs : List ℕ) (x : ℕ) :
    bumpLast (xs ++ [x]) = xs ++ [x + 1] := by
  induction xs with
  | nil => rfl
  | cons a tl ih =>
    cases tl with
    | nil => rfl
    | cons b tl2 =>
      simp only [List.cons_append, bumpLast, List.append_eq] at ih ⊢
      rw [ih]

theorem bumpLast_append_pair (xs : List ℕ) (x y : ℕ) :
    bumpLast (xs ++ [x, y]) = xs ++ [x, y + 1] := by
  induction xs with
  | nil => rfl
  | cons a tl ih =>
    cases tl with
    | nil => rfl
    | cons b tl2 =>
      simp only [List.cons_append, bumpLast, List.append_eq] at ih ⊢
      rw [ih]

/-- Closed form of the proxy state after `n + 1` writes starting from a fresh
proxy with cap `C`: with `q = n / (C+1)` and `r = n % (C+1)`, there are
`q + 1` parts, all full parts hold `C + 1` frames and the open part holds
`r + 1` frames. -/
theorem FfmpegProxy.writes_closed_form (C n : ℕ) :
    (FfmpegProxy.init C).writes (n + 1) =
      ⟨n / (C + 1) + 1, C, n % (C + 1), true,
        List.replicate (n / (C + 1)) (C + 1) ++ [n % (C + 1) + 1]⟩ := by
  induction n with
  | zero =>
    simp only [FfmpegProxy.writes, FfmpegProxy.init, FfmpegProxy.write,
      FfmpegProxy.start_process, FfmpegProxy.stop_process]
    rcases Nat.eq_zero_or_pos C with hC | hC
    · subst hC
      simp [bumpLast]
    · have h1 : ¬ C < 0 + 1 := by omega
      simp [h1, bumpLast]
  | succ m ih =>
    show ((FfmpegProxy.init C).writes (m + 1)).write = _
    rw [ih]
    have hdm := Nat.div_add_mod m (C + 1)
    have hmlt : m % (C + 1) < C + 1 := Nat.mod_lt _ (by omega)
    rcases Nat.lt_or_ge (m % (C + 1)) C with hr | hr
    · -- no rollover: the incremented counter stays within the cap
      have heq : m + 1 = (C + 1) * (m / (C + 1)) + (m % (C + 1) + 1) := by omega
      have hmod : (m + 1) % (C + 1) = m % (C + 1) + 1 := by
        rw [heq, Nat.mul_add_mod, Nat.mod_eq_of_lt (by omega)]
      have hdiv : (m + 1) / (C + 1) = m / (C + 1) := by
        have h3 : (m % (C + 1) + 1) / (C + 1) = 0 := Nat.div_eq_of_lt (by omega)
        rw [heq, Nat.mul_add_div (by omega), h3]
        omega
      have hlt : ¬ C < m % (C + 1) + 1 := by omega
      simp [FfmpegProxy.write, FfmpegProxy.stop_process,
        FfmpegProxy.start_process, hlt, hmod, hdiv, bumpLast_append_singleton]
    · -- rollover: the counter has reached the cap, a new part is opened
      have hreq : m % (C + 1) = C := by omega
      have heq : m + 1 = (C + 1) * (m / (C + 1) + 1) := by
        rw [Nat.mul_succ]
        omega
      have hmod : (m + 1) % (C + 1) = 0 := by
        rw [heq]
        exact Nat.mul_mod_right _ _
      have hdiv : (m + 1) / (C + 1) = m / (C + 1) + 1 := by
        rw [heq]
        exact Nat.mul_div_cancel_left _ (by omega)
      have hlt : C < m % (C + 1) + 1 := by omega
      simp [FfmpegProxy.write, FfmpegProxy.stop_process,
        FfmpegProxy.start_process, hlt, hmod, hdiv, hreq]
      rw [bumpLast_append_pair, List.replicate_succ' (m / (C + 1))]
      simp

end Ctx

/-- Claim C1, counterexample: with per-part cap `C = 1` (`max_frames = 1`),
two calls to `write` put both frames into the one and only part: the part
holds 2 > C frames and there is 1 part, not `ceil(2/1) = 2`.  The cap is
breached because `start_process` resets `frame_count` to 0 after `write`
has already counted the part's first frame. -/
theorem C1_cap_counterexample :
    ((Ctx.FfmpegProxy.init 1).writes 2).partFrames = [2] ∧ ¬ (2 ≤ 1) ∧
      ((Ctx.FfmpegProxy.init 1).writes 2).partFrames.length = 1 ∧ (1 : ℕ) ≠ 2 := by
  decide

/-- Claim C1 (amended): for cap `C` and `N ≥ 1` writes, no part ever holds
more than `C + 1` frames (not `C`: the first frame of each part escapes the
counter), no frame is dropped (the per-part counts sum to `N`), and the
frames are split into `ceil (N / (C+1))` parts. -/
theorem C1_segmented_sink_cap (C N : ℕ) (h : 1 ≤ N) :
    (∀ x ∈ ((Ctx.FfmpegProxy.init C).writes N).partFrames, x ≤ C + 1) ∧
      ((Ctx.FfmpegProxy.init C).writes N).partFrames.sum = N ∧
      ((Ctx.FfmpegProxy.init C).writes N).partFrames.length = (N + C) / (C + 1) := by
  obtain ⟨n, rfl⟩ : ∃ n, N = n + 1 := ⟨N - 1, by omega⟩
  rw [Ctx.FfmpegProxy.writes_closed_form]
  have hdm := Nat.div_add_mod n (C + 1)
  have hmlt : n % (C + 1) < C + 1 := Nat.mod_lt _ (by omega)
  refine ⟨?_, ?_, ?_⟩
  · intro x hx
    simp only [List.mem_append, List.mem_replicate, List.mem_singleton] at hx
    rcases hx with ⟨-, rfl⟩ | rfl
    · exact le_refl _
    · omega
  · simp only [List.sum_append, List.sum_replicate, smul_eq_mul, List.sum_cons,
      List.sum_nil, Nat.mul_comm (n / (C + 1)) (C + 1)]
    omega
  · simp only [List.length_append, List.length_replicate, List.length_cons,
      List.length_nil]
    have h2 : n + 1 + C = n + (C + 1) := by omega
    rw [h2, Nat.add_div_right _ (by omega)]

/-- Claim C1, witness for the amended theorem at cap 2 and 7 writes. -/
theorem C1_segmented_sink_cap_witness :
    1 ≤ 7 ∧ (3 : ℕ) ≤ 2 + 1 ∧
      ((Ctx.FfmpegProxy.init 2).writes 7).partFrames.sum = 7 ∧
      ((Ctx.FfmpegProxy.init 2).writes 7).partFrames.length = (7 + 2) / (2 + 1) :=
  ⟨by decide, (C1_segmented_sink_cap 2 7 (by decide)).1 3 (by decide),
    (C1_segmented_sink_cap 2 7 (by decide)).2.1,
    (C1_segmented_sink_cap 2 7 (by decide)).2.2⟩

namespace Frames

theorem count_paint_range (n : ℕ) :
    ((List.range n).flatMap frameBlock).count .paintBackground = n := by
  induction n with
  | zero => rfl
  | succ m ih =>
    rw [List.range_succ, List.flatMap_append, List.count_append, ih]
    rfl

theorem count_save_range (n : ℕ) :
    ((List.range n).flatMap frameBlock).count .saveFrame = n := by
  induction n with
  | zero => rfl
  | succ m ih =>
    rw [List.range_succ, List.flatMap_append, List.count_append, ih]
    rfl

theorem count_yield_range (n k : ℕ) :
    ((List.range n).flatMap frameBlock).count (.yieldFrame k) =
      if k < n then 1 else 0 := by
  induction n with
  | zero => rfl
  | succ m ih =>
    rw [List.range_succ, List.flatMap_append, List.count_append, ih]
    simp only [List.flatMap_cons, List.flatMap_nil, List.append_nil, frameBlock]
    rcases Nat.lt_trichotomy k m with h | h | h
    · have h1 : k < m + 1 := by omega
      have h2 : FrameEvent.yieldFrame m ≠ FrameEvent.yieldFrame k := by
        simp
        omega
      simp [h, h1, List.count_cons, h2]
    · subst h
      simp [List.count_cons]
    · have h1 : ¬ k < m := by omega
      have h2 : ¬ k < m + 1 := by omega
      have h3 : FrameEvent.yieldFrame m ≠ FrameEvent.yieldFrame k := by
        simp
        omega
      simp [h1, h2, List.count_cons, h3]

theorem framePass_cons (e : PyElement) (l : List PyElement) :
    framePass (e :: l) =
      if e.stopAt ≤ e.calls + 1 then framePass l
      else { e with calls := e.calls + 1 } :: framePass l := by
  simp only [framePass, List.map_cons, stepElement, List.filter_cons]
  by_cases h : e.stopAt ≤ e.calls + 1
  · simp [h]
  · simp [h]

theorem framePass_filter_map (l₀ : List PyElement) (t : ℕ) :
    framePass ((l₀.filter (fun e => decide (t < e.stopAt))).map
        (fun e => { e with calls := t })) =
      (l₀.filter (fun e => decide (t + 1 < e.stopAt))).map
        (fun e => { e with calls := t + 1 }) := by
  induction l₀ with
  | nil => rfl
  | cons a tl ih =>
    by_cases h1 : t < a.stopAt
    · by_cases h2 : t + 1 < a.stopAt
      · have h3 : ¬ a.stopAt ≤ t + 1 := by omega
        simp [List.filter_cons, h1, h2, framePass_cons, h3, ih]
      · have h3 : a.stopAt ≤ t + 1 := by omega
        simp [List.filter_cons, h1, h2, framePass_cons, h3, ih]
    · have h2 : ¬ t + 1 < a.stopAt := by omega
      simp [List.filter_cons, h1, h2, ih]

theorem render_frames_traces (l₀ : List PyElement) (n : ℕ) : ∀ t : ℕ,
    (render_frames n ((l₀.filter (fun e => decide (t < e.stopAt))).map
        (fun e => { e with calls := t }))).1 =
      (List.range n).map
        (fun j => (l₀.filter (fun e => decide (t + j < e.stopAt))).map
          PyElement.eid) := by
  induction n with
  | zero => intro t; rfl
  | succ m ih =>
    intro t
    simp only [render_frames, framePass_filter_map, ih (t + 1),
      List.range_succ_eq_map, List.map_cons, List.map_map]
    congr 1
    apply List.map_congr_left
    intro j hj
    have h1 : t + 1 + j = t + (j + 1) := by omega
    simp only [Function.comp_apply]
    rw [h1]

theorem count_eid_filter (l : List PyElement) (e : PyElement)
    (p : PyElement → Bool) :
    (l.map PyElement.eid).Nodup → e ∈ l →
    ((l.filter p).map PyElement.eid).count e.eid = if p e then 1 else 0 := by
  induction l with
  | nil => intro _ he; cases he
  | cons a tl ih =>
    intro hnodup he
    simp only [List.map_cons, List.nodup_cons] at hnodup
    rcases List.mem_cons.mp he with rfl | hetl
    · have hnot : e.eid ∉ (tl.filter p).map PyElement.eid := by
        intro hmem
        apply hnodup.1
        rcases List.mem_map.mp hmem with ⟨x, hx, hxe⟩
        exact List.mem_map.mpr ⟨x, List.mem_of_mem_filter hx, hxe⟩
      by_cases hp : p e
      · simp only [List.filter_cons, hp, if_true, List.map_cons, List.count_cons]
        rw [List.count_eq_zero.mpr hnot]
        simp
      · simp only [List.filter_cons, hp, Bool.false_eq_true, if_false]
        rw [List.count_eq_zero.mpr hnot]
    · have hne : a.eid ≠ e.eid := by
        intro hcontra
        exact hnodup.1 (hcontra ▸ List.mem_map.mpr ⟨e, hetl, rfl⟩)
      by_cases hp : p a
      · simp only [List.filter_cons, hp, if_true, List.map_cons, List.count_cons]
        rw [ih hnodup.2 hetl]
        simp [hne]
      · simp only [List.filter_cons, hp, Bool.false_eq_true, if_false]
        exact ih hnodup.2 hetl

end Frames

/-- Claim C2: for every non-negative duration `d` and frame rate `fps`, the
`frames` loop performs exactly `⌊d * fps⌋` iterations — independent of
wall-clock time — and each iteration paints the background once, yields its
frame number exactly once and saves exactly one frame to the output. -/
theorem C2_frames_floor_count (fps : ℕ) (d : ℚ) (h : 0 ≤ d) :
    (Frames.frames fps d).count .paintBackground = (⌊d * fps⌋).toNat ∧
      (Frames.frames fps d).count .saveFrame = (⌊d * fps⌋).toNat ∧
      ∀ k : ℕ, (Frames.frames fps d).count (.yieldFrame k) =
        if k < (⌊d * fps⌋).toNat then 1 else 0 := by
  have hq : 0 ≤ d * fps := mul_nonneg h (by positivity)
  unfold Frames.frames
  rw [pyInt_of_nonneg _ hq]
  exact ⟨Frames.count_paint_range _, Frames.count_save_range _,
    fun k => Frames.count_yield_range _ k⟩

/-- Claim C2, witness: the spec scenario of a 60 fps, 3-second session gives
exactly 180 frames. -/
theorem C2_frames_floor_count_witness :
    0 ≤ (3 : ℚ) ∧
      (Frames.frames 60 3).count .paintBackground = (⌊(3 : ℚ) * (60 : ℕ)⌋).toNat ∧
      (Frames.frames 60 3).count .saveFrame = (⌊(3 : ℚ) * (60 : ℕ)⌋).toNat ∧
      (Frames.frames 60 3).count (.yieldFrame 0) =
        if 0 < (⌊(3 : ℚ) * (60 : ℕ)⌋).toNat then 1 else 0 :=
  ⟨by norm_num, (C2_frames_floor_count 60 3 (by norm_num)).1,
    (C2_frames_floor_count 60 3 (by norm_num)).2.1,
    (C2_frames_floor_count 60 3 (by norm_num)).2.2 0⟩

/-- Claim C4, counterexample: for the interactive-recording session variant
(`InteractiveAnimation`), `wait(2)` at 30 fps writes the 60 freeze frames
but then also sleeps for 2 real-time seconds (`frames.py` line 94), so the
claim's "without sleeping" is false for that variant. -/
theorem C4_wait_counterexample :
    Frames.wait .interactiveAnimation 30 0 2 =
      List.replicate 60 (.writeFrame 0) ++ [.sleepFor 2] ∧
      (Frames.wait .interactiveAnimation 30 0 2).count (.sleepFor 2) = 1 ∧
      (1 : ℕ) ≠ 0 := by
  have h60 : (pyInt ((2 : ℚ) * (30 : ℕ))).toNat = 60 := by
    norm_num [pyInt] <;> decide
  refine ⟨?_, ?_, by decide⟩
  · show List.replicate (pyInt ((2 : ℚ) * (30 : ℕ))).toNat _ ++ _ = _
    rw [h60]
  · show (List.replicate (pyInt ((2 : ℚ) * (30 : ℕ))).toNat _ ++ _).count _ = _
    rw [h60]
    simp [List.count_append, List.count_replicate]

/-- Claim C4 (amended): for every non-negative duration `d`, the video-only
and video+audio variants write the current frame buffer unchanged
`⌊d * fps⌋` times and never sleep; the interactive-recording variant writes
the same `⌊d * fps⌋` freeze frames but then additionally sleeps `d` seconds
in real time; a pure interactive session only sleeps. -/
theorem C4_wait_behavior (fps buf : ℕ) (d : ℚ) (h : 0 ≤ d) :
    Frames.wait .animation fps buf d =
        List.replicate (⌊d * fps⌋).toNat (.writeFrame buf) ∧
      Frames.wait .animationSequence fps buf d =
        List.replicate (⌊d * fps⌋).toNat (.writeFrame buf) ∧
      Frames.wait .interactive fps buf d = [.sleepFor d] ∧
      Frames.wait .interactiveAnimation fps buf d =
        List.replicate (⌊d * fps⌋).toNat (.writeFrame buf) ++ [.sleepFor d] := by
  have hq : 0 ≤ d * fps := mul_nonneg h (by positivity)
  refine ⟨?_, ?_, rfl, ?_⟩ <;>
    simp [Frames.wait, pyInt_of_nonneg _ hq]

/-- Claim C4, witness at 30 fps, duration 2, buffer value 7. -/
theorem C4_wait_behavior_witness :
    0 ≤ (2 : ℚ) ∧
      (Frames.wait .animation 30 7 2 =
          List.replicate (⌊(2 : ℚ) * (30 : ℕ)⌋).toNat (.writeFrame 7) ∧
        Frames.wait .animationSequence 30 7 2 =
          List.replicate (⌊(2 : ℚ) * (30 : ℕ)⌋).toNat (.writeFrame 7) ∧
        Frames.wait .interactive 30 7 2 = [.sleepFor 2] ∧
        Frames.wait .interactiveAnimation 30 7 2 =
          List.replicate (⌊(2 : ℚ) * (30 : ℕ)⌋).toNat (.writeFrame 7) ++
            [.sleepFor 2]) :=
  ⟨by norm_num, C4_wait_behavior 30 7 2 (by norm_num)⟩

/-- Claim C3: in `render_frames`, starting from freshly created elements
with distinct ids, an element whose generator signals completion on its
`k`-th step is stepped exactly once in each of frames `1..k` (in particular
it is still present, and stepped, in the frame where it completes — removal
happens only after that frame's full pass) and is never stepped again in
any later frame. -/
theorem C3_element_lifecycle (l₀ : List Frames.PyElement)
    (hfresh : ∀ e ∈ l₀, e.calls = 0)
    (hstop : ∀ e ∈ l₀, 1 ≤ e.stopAt)
    (hnodup : (l₀.map Frames.PyElement.eid).Nodup)
    (e : Frames.PyElement) (he : e ∈ l₀) (n f : ℕ) (hf : f < n) :
    ((Frames.render_frames n l₀).1.getD f []).count e.eid =
      if f + 1 ≤ e.stopAt then 1 else 0 := by
  have hl : (l₀.filter (fun x => decide (0 < x.stopAt))).map
      (fun x => { x with calls := 0 }) = l₀ := by
    rw [List.filter_eq_self.mpr (fun a ha => by
      have := hstop a ha
      simp only [decide_eq_true_eq]
      omega)]
    have : ∀ a ∈ l₀, ({ a with calls := 0 } : Frames.PyElement) = a := by
      intro a ha
      have := hfresh a ha
      cases a
      simp_all
    calc l₀.map (fun x => { x with calls := 0 })
        = l₀.map id := List.map_congr_left this
      _ = l₀ := List.map_id l₀
  have htr := Frames.render_frames_traces l₀ n 0
  rw [hl] at htr
  rw [htr]
  have hlen : f < ((List.range n).map
      (fun j => (l₀.filter (fun x => decide (0 + j < x.stopAt))).map
        Frames.PyElement.eid)).length := by
    simp [hf]
  rw [List.getD_eq_getElem _ _ hlen, List.getElem_map, List.getElem_range]
  rw [Frames.count_eid_filter l₀ e _ hnodup he]
  simp only [Nat.zero_add]
  by_cases hcase : f + 1 ≤ e.stopAt
  · have : f < e.stopAt := by omega
    simp [hcase, this]
  · have : ¬ f < e.stopAt := by omega
    simp [hcase, this]

namespace Audio

theorem reverbLoop_succ (d : ℕ) (c : ℚ) (b : List ℚ) (k : ℕ) :
    reverbLoop d c b (k + 1) = reverbStep d c (reverbLoop d c b k) k := by
  simp [reverbLoop, List.range_succ]

theorem length_reverbLoop (d : ℕ) (c : ℚ) (b : List ℚ) (k : ℕ) :
    (reverbLoop d c b k).length = b.length := by
  induction k with
  | zero => rfl
  | succ m ih =>
    rw [reverbLoop_succ]
    simp [reverbStep, ih]

theorem at0_reverbLoop_of_lt_delay (d : ℕ) (c : ℚ) (b : List ℚ) (k j : ℕ)
    (hj : j < d) : at0 (reverbLoop d c b k) j = at0 b j := by
  induction k with
  | zero => rfl
  | succ m ih =>
    rw [reverbLoop_succ]
    have hne : m + d ≠ j := by omega
    simp only [at0, reverbStep, List.getD_eq_getElem?_getD,
      List.getElem?_set_ne hne] at ih ⊢
    exact ih

theorem at0_reverbLoop_of_ge (d : ℕ) (c : ℚ) (b : List ℚ) (k j : ℕ)
    (hj : k + d ≤ j) : at0 (reverbLoop d c b k) j = at0 b j := by
  induction k with
  | zero => rfl
  | succ m ih =>
    rw [reverbLoop_succ]
    have hne : m + d ≠ j := by omega
    have ih2 := ih (by omega)
    simp only [at0, reverbStep, List.getD_eq_getElem?_getD,
      List.getElem?_set_ne hne] at ih2 ⊢
    exact ih2

theorem at0_reverbLoop_stable (d : ℕ) (c : ℚ) (b : List ℚ) (k k' j : ℕ)
    (hj : j < k + d) (hk : k ≤ k') :
    at0 (reverbLoop d c b k') j = at0 (reverbLoop d c b k) j := by
  induction k' with
  | zero =>
    have : k = 0 := by omega
    rw [this]
  | succ m ih =>
    rcases Nat.lt_or_ge k (m + 1) with h | h
    · have hk2 : k ≤ m := by omega
      rw [reverbLoop_succ]
      have hne : m + d ≠ j := by omega
      have ih2 := ih hk2
      simp only [at0, reverbStep, List.getD_eq_getElem?_getD,
        List.getElem?_set_ne hne] at ih2 ⊢
      exact ih2
    · have : k = m + 1 := by omega
      rw [this]

theorem at0_reverbLoop_step (d : ℕ) (c : ℚ) (b : List ℚ) (i : ℕ)
    (hlen : i + d < b.length) :
    at0 (reverbLoop d c b (i + 1)) (i + d) =
      at0 (reverbLoop d c b i) (i + d) + at0 (reverbLoop d c b i) i * c := by
  rw [reverbLoop_succ]
  have hl : i + d < (reverbLoop d c b i).length := by
    rw [length_reverbLoop]
    exact hlen
  simp only [at0, reverbStep, List.getD_eq_getElem?_getD,
    List.getElem?_set_eq_of_lt _ hl, Option.getD_some]

end Audio

namespace Scene

theorem keyLe_refl {K : Type} [LinearOrder K] (a : XKey K) : keyLe a a := by
  cases a <;> simp [keyLe]

theorem keyLe_total {K : Type} [LinearOrder K] (a b : XKey K) :
    keyLe a b || keyLe b a := by
  cases a <;> cases b <;> simp [keyLe] <;> exact le_total _ _

theorem keyLe_trans {K : Type} [LinearOrder K] (a b c : XKey K)
    (h1 : keyLe a b) (h2 : keyLe b c) : keyLe a c := by
  cases a <;> cases b <;> cases c <;> simp_all [keyLe] <;> exact le_trans h1 h2

theorem keyLe_antisymm {K : Type} [LinearOrder K] (a b : XKey K)
    (h1 : keyLe a b) (h2 : keyLe b a) : a = b := by
  cases a <;> cases b <;> simp_all [keyLe]
  exact le_antisymm h1 h2

/-- Two sorted lists that are permutations of each other and whose `le` is
antisymmetric on their members are equal (the stable sort of a collection
with pairwise-distinct keys is permutation-invariant). -/
theorem eq_of_perm_of_sorted_of_antisymm {α : Type} (le : α → α → Bool) :
    ∀ (l₁ l₂ : List α), l₁.Perm l₂ → l₁.Pairwise (fun a b => le a b) →
      l₂.Pairwise (fun a b => le a b) →
      (∀ a ∈ l₁, ∀ b ∈ l₁, le a b → le b a → a = b) → l₁ = l₂
  | [], l₂, hp, _, _, _ => hp.nil_eq
  | a :: t₁, [], hp, _, _, _ => by
    exact absurd hp.symm (by simp)
  | a :: t₁, b :: t₂, hp, hs₁, hs₂, hanti => by
    have hab : a = b := by
      by_contra hne
      have ha2 : a ∈ b :: t₂ := hp.mem_iff.mp (List.mem_cons_self a t₁)
      have hat2 : a ∈ t₂ := by
        rcases List.mem_cons.mp ha2 with h | h
        · exact absurd h hne
        · exact h
      have hb1 : b ∈ a :: t₁ := hp.mem_iff.mpr (List.mem_cons_self b t₂)
      have hbt1 : b ∈ t₁ := by
        rcases List.mem_cons.mp hb1 with h | h
        · exact absurd h.symm hne
        · exact h
      have hle_ab : le a b := List.rel_of_pairwise_cons hs₁ hbt1
      have hle_ba : le b a := List.rel_of_pairwise_cons hs₂ hat2
      exact hne (hanti a (List.mem_cons_self a t₁) b hb1 hle_ab hle_ba)
    subst hab
    have hp2 : t₁.Perm t₂ := hp.cons_inv
    have h2 := eq_of_perm_of_sorted_of_antisymm le t₁ t₂ hp2
      (List.Pairwise.of_cons hs₁) (List.Pairwise.of_cons hs₂)
      (fun x hx y hy => hanti x (List.mem_cons_of_mem a hx) y
        (List.mem_cons_of_mem a hy))
    rw [h2]

theorem transpose_mulVec_neg_e3 (a b c d e f g h i : ℝ) :
    (!![a, b, c; d, e, f; g, h, i]).transpose.mulVec ![0, 0, -1] =
      ![-g, -h, -i] := by
  funext j
  fin_cases j <;>
    simp [Matrix.mulVec, Matrix.transpose, Matrix.dotProduct,
      Fin.sum_univ_three] <;>
    ring

end Scene

/-- Claim C7, counterexample: for `rotation_order = "zyx"` (equally
`"xzy"` or `"yzx"`) the compositor does NOT build the rotation in that
axis order — it falls back to `"xyz"` — and the difference is observable in
the ranking: at angles `(π/2, π/2, 0)` the code ranks the entity with the
single point `(1, 0, 0)` by key `1`, while building the rotation in the
stated `zyx` order would rank it by key `0`. -/
theorem C7_rotation_order_counterexample :
    Scene.sceneRotation "zyx" (Real.pi / 2) (Real.pi / 2) 0 ≠
        Scene.eulerRotationInOrder "zyx" (Real.pi / 2) (Real.pi / 2) 0 ∧
      Scene.realViewKey "zyx" (Real.pi / 2) (Real.pi / 2) 0 Scene.pyMean
          ⟨0, some [(1, 0, 0)]⟩ = .fin 1 ∧
      Scene.specViewKey "zyx" (Real.pi / 2) (Real.pi / 2) 0 Scene.pyMean
          ⟨0, some [(1, 0, 0)]⟩ = .fin 0 ∧
      (Scene.XKey.fin (1 : ℝ)) ≠ .fin 0 := by
  have hcode : Scene.sceneRotation "zyx" (Real.pi / 2) (Real.pi / 2) 0 =
      !![0, 1, 0; 0, 0, -1; -1, 0, 0] := by
    unfold Scene.sceneRotation
    rw [if_neg (by decide), if_neg (by decide)]
    unfold Scene.Rx Scene.Ry Scene.Rz
    simp [Real.cos_pi_div_two, Real.sin_pi_div_two]
  have hspec : Scene.eulerRotationInOrder "zyx" (Real.pi / 2) (Real.pi / 2) 0 =
      !![0, 0, 1; 1, 0, 0; 0, 1, 0] := by
    unfold Scene.eulerRotationInOrder
    rw [if_neg (by decide), if_neg (by decide), if_neg (by decide),
      if_neg (by decide), if_neg (by decide)]
    unfold Scene.Rx Scene.Ry Scene.Rz
    simp [Real.cos_pi_div_two, Real.sin_pi_div_two]
  refine ⟨?_, ?_, ?_, ?_⟩
  · rw [hcode, hspec]
    intro h
    have h2 := Matrix.ext_iff.mpr h 0 1
    norm_num at h2
  · unfold Scene.realViewKey Scene.viewVecTriple
    rw [hcode, Scene.transpose_mulVec_neg_e3]
    norm_num [Scene.projKey, Scene.pyMean, Scene.dot3]
  · unfold Scene.specViewKey Scene.specViewVecTriple
    rw [hspec, Scene.transpose_mulVec_neg_e3]
    norm_num [Scene.projKey, Scene.pyMean, Scene.dot3]
  · intro h
    simp at h

/-- Claim C7 (amended): for `rotation_order` in `{"xyz", "yxz", "zxy"}` the
compositor builds the 3-axis rotation in exactly that axis order from the
Scene's three angles; any other value — including the three remaining
permutations `"xzy"`, `"yzx"`, `"zyx"` — falls back to the `"xyz"` order.
The built rotation is then inverted and applied to `(0, 0, -1)`, and an
entity with points is ranked by `fn` of the dot products of its points
with that view vector. -/
theorem C7_rotation_order_fallback (ax ay az : ℝ) :
    Scene.sceneRotation "xyz" ax ay az =
        Scene.eulerRotationInOrder "xyz" ax ay az ∧
      Scene.sceneRotation "yxz" ax ay az =
        Scene.eulerRotationInOrder "yxz" ax ay az ∧
      Scene.sceneRotation "zxy" ax ay az =
        Scene.eulerRotationInOrder "zxy" ax ay az ∧
      Scene.sceneRotation "xzy" ax ay az =
        Scene.eulerRotationInOrder "xyz" ax ay az ∧
      Scene.sceneRotation "yzx" ax ay az =
        Scene.eulerRotationInOrder "xyz" ax ay az ∧
      Scene.sceneRotation "zyx" ax ay az =
        Scene.eulerRotationInOrder "xyz" ax ay az ∧
      ∀ (fn : List ℝ → ℝ) (order : String) (i : ℕ) (p : ℝ × ℝ × ℝ)
        (ps : List (ℝ × ℝ × ℝ)),
        Scene.realViewKey order ax ay az fn ⟨i, some (p :: ps)⟩ =
          .fin (fn ((p :: ps).map
            (fun x => Scene.dot3 x (Scene.viewVecTriple order ax ay az)))) := by
  refine ⟨?_, ?_, ?_, ?_, ?_, ?_, ?_⟩
  · simp [Scene.sceneRotation, Scene.eulerRotationInOrder]
  · simp [Scene.sceneRotation, Scene.eulerRotationInOrder]
  · simp [Scene.sceneRotation, Scene.eulerRotationInOrder]
  · simp [Scene.sceneRotation, Scene.eulerRotationInOrder]
  · simp [Scene.sceneRotation, Scene.eulerRotationInOrder]
  · simp [Scene.sceneRotation, Scene.eulerRotationInOrder]
  · intro fn order i p ps
    rfl

/-- Claim C8: in `ViewOrderList2.__iter__`, an entity whose `points3d` is
`None` gets key `math.inf` and an entity with a present-but-empty point
list gets key `-math.inf` — the two cases are never conflated — and the
produced sequence is sorted by `keyLe`, under which `math.inf` keys can
only sit at the end (yielded last) and `-math.inf` keys only at the start
(yielded first). -/
theorem C8_null_empty_keys {K : Type} [LinearOrder K] [Mul K] [Add K]
    (fn : List K → K) (Y : K × K × K) :
    (∀ e : Scene.Entity K, Scene.projKey fn Y e = .posinf ↔ e.points3d = none) ∧
      (∀ e : Scene.Entity K,
        Scene.projKey fn Y e = .neginf ↔ e.points3d = some []) ∧
      ((Scene.XKey.posinf : Scene.XKey K) ≠ .neginf) ∧
      (∀ l : List (Scene.Entity K),
        (Scene.ViewOrderList2_iter fn Y 0 none l).Pairwise
          (fun a b => Scene.keyLe (Scene.projKey fn Y a)
            (Scene.projKey fn Y b))) ∧
      (∀ k : Scene.XKey K, Scene.keyLe .posinf k → k = .posinf) ∧
      (∀ k : Scene.XKey K, Scene.keyLe k .neginf → k = .neginf) := by
  refine ⟨?_, ?_, by simp, ?_, ?_, ?_⟩
  · rintro ⟨i, pts⟩
    rcases pts with - | ⟨- | ⟨p, ps⟩⟩ <;> simp [Scene.projKey]
  · rintro ⟨i, pts⟩
    rcases pts with - | ⟨- | ⟨p, ps⟩⟩ <;> simp [Scene.projKey]
  · intro l
    have h : (l.mergeSort (fun a b => Scene.keyLe (Scene.projKey fn Y a)
        (Scene.projKey fn Y b))).Pairwise
        (fun a b => Scene.keyLe (Scene.projKey fn Y a) (Scene.projKey fn Y b)) :=
      List.sorted_mergeSort
        (fun a b c => Scene.keyLe_trans (Scene.projKey fn Y a)
          (Scene.projKey fn Y b) (Scene.projKey fn Y c))
        (fun a b => Scene.keyLe_total (Scene.projKey fn Y a)
          (Scene.projKey fn Y b)) l
    simpa [Scene.ViewOrderList2_iter, pySlice] using h
  · intro k hk
    cases k <;> simp_all [Scene.keyLe]
  · intro k hk
    cases k <;> simp_all [Scene.keyLe]

/-- Claim C8, witness at concrete entities over `ℚ`: a null-points entity
keys to `math.inf`, an empty-points entity to `-math.inf`, and a concrete
two-entity collection comes out sorted. -/
theorem C8_null_empty_keys_witness :
    (Scene.projKey Scene.pyMean ((0 : ℚ), 0, -1) ⟨0, none⟩ = .posinf) ∧
      (Scene.projKey Scene.pyMean ((0 : ℚ), 0, -1) ⟨1, some []⟩ = .neginf) ∧
      ((Scene.ViewOrderList2_iter Scene.pyMean ((0 : ℚ), 0, -1) 0 none
          [⟨0, none⟩, ⟨1, some []⟩]).Pairwise
        (fun a b => Scene.keyLe (Scene.projKey Scene.pyMean ((0 : ℚ), 0, -1) a)
          (Scene.projKey Scene.pyMean ((0 : ℚ), 0, -1) b))) ∧
      ((Scene.XKey.posinf : Scene.XKey ℚ) = .posinf) :=
  ⟨((C8_null_empty_keys Scene.pyMean ((0 : ℚ), 0, -1)).1 ⟨0, none⟩).mpr rfl,
    ((C8_null_empty_keys Scene.pyMean ((0 : ℚ), 0, -1)).2.1 ⟨1, some []⟩).mpr rfl,
    (C8_null_empty_keys Scene.pyMean ((0 : ℚ), 0, -1)).2.2.2.1
      [⟨0, none⟩, ⟨1, some []⟩],
    (C8_null_empty_keys Scene.pyMean ((0 : ℚ), 0, -1)).2.2.2.2.1 .posinf
      (by rfl)⟩

/-- Claim C9, counterexample: two distinct entities with identical
projected keys.  Sorting `[A, B]` yields `[A, B]` while sorting the
permuted input `[B, A]` yields `[B, A]`: the output order is NOT the same
for every permutation of the input (the projected key does not induce a
total order over the entities when keys tie; stability preserves the input
order of the tie instead). -/
theorem C9_perm_counterexample :
    Scene.ViewOrderList2_iter Scene.pyMean ((0 : ℚ), 0, -1) 0 none
        [⟨0, some [(0, 0, 0)]⟩, ⟨1, some [(0, 0, 0)]⟩] =
      [⟨0, some [(0, 0, 0)]⟩, ⟨1, some [(0, 0, 0)]⟩] ∧
      Scene.ViewOrderList2_iter Scene.pyMean ((0 : ℚ), 0, -1) 0 none
          [⟨1, some [(0, 0, 0)]⟩, ⟨0, some [(0, 0, 0)]⟩] =
        [⟨1, some [(0, 0, 0)]⟩, ⟨0, some [(0, 0, 0)]⟩] ∧
      List.Perm [(⟨0, some [(0, 0, 0)]⟩ : Scene.Entity ℚ), ⟨1, some [(0, 0, 0)]⟩]
        [⟨1, some [(0, 0, 0)]⟩, ⟨0, some [(0, 0, 0)]⟩] ∧
      ([(⟨0, some [(0, 0, 0)]⟩ : Scene.Entity ℚ), ⟨1, some [(0, 0, 0)]⟩] ≠
        [⟨1, some [(0, 0, 0)]⟩, ⟨0, some [(0, 0, 0)]⟩]) := by
  have hkey : ∀ i : ℕ, Scene.projKey Scene.pyMean ((0 : ℚ), 0, -1)
      ⟨i, some [(0, 0, 0)]⟩ = .fin 0 := by
    intro i
    norm_num [Scene.projKey, Scene.pyMean, Scene.dot3]
  have hle : ∀ i j : ℕ,
      Scene.keyLe (Scene.projKey Scene.pyMean ((0 : ℚ), 0, -1) ⟨i, some [(0, 0, 0)]⟩)
        (Scene.projKey Scene.pyMean ((0 : ℚ), 0, -1) ⟨j, some [(0, 0, 0)]⟩) := by
    intro i j
    rw [hkey i, hkey j]
    simp [Scene.keyLe]
  have hs1 : List.Pairwise
      (fun a b : Scene.Entity ℚ =>
        Scene.keyLe (Scene.projKey Scene.pyMean ((0 : ℚ), 0, -1) a)
          (Scene.projKey Scene.pyMean ((0 : ℚ), 0, -1) b))
      [⟨0, some [(0, 0, 0)]⟩, ⟨1, some [(0, 0, 0)]⟩] :=
    List.pairwise_pair.mpr (hle 0 1)
  have hs2 : List.Pairwise
      (fun a b : Scene.Entity ℚ =>
        Scene.keyLe (Scene.projKey Scene.pyMean ((0 : ℚ), 0, -1) a)
          (Scene.projKey Scene.pyMean ((0 : ℚ), 0, -1) b))
      [⟨1, some [(0, 0, 0)]⟩, ⟨0, some [(0, 0, 0)]⟩] :=
    List.pairwise_pair.mpr (hle 1 0)
  refine ⟨?_, ?_, List.Perm.swap _ _ _, by simp⟩
  · simp only [Scene.ViewOrderList2_iter, pySlice]
    rw [List.mergeSort_of_sorted hs1]
    simp
  · simp only [Scene.ViewOrderList2_iter, pySlice]
    rw [List.mergeSort_of_sorted hs2]
    simp

/-- Claim C9 (amended): the `[start:end]` slice is applied only after the
sort is complete; entities with identical projected keys appear in the
output in their relative input order (stability); and the output order is
the same for every permutation of the input whenever the projected keys
are pairwise distinct (only then does the key induce a total order over
the entities). -/
theorem C9_view_order_stability {K : Type} [LinearOrder K] [Mul K] [Add K]
    (fn : List K → K) (Y : K × K × K) :
    (∀ (start : ℕ) (stop : Option ℕ) (l : List (Scene.Entity K)),
        Scene.ViewOrderList2_iter fn Y start stop l =
          pySlice start stop (Scene.ViewOrderList2_iter fn Y 0 none l)) ∧
      (∀ (l : List (Scene.Entity K)) (k : Scene.XKey K),
        (Scene.ViewOrderList2_iter fn Y 0 none l).filter
            (fun e => decide (Scene.projKey fn Y e = k)) =
          l.filter (fun e => decide (Scene.projKey fn Y e = k))) ∧
      (∀ l₁ l₂ : List (Scene.Entity K), l₁.Perm l₂ →
        (∀ a ∈ l₁, ∀ b ∈ l₁,
          Scene.projKey fn Y a = Scene.projKey fn Y b → a = b) →
        Scene.ViewOrderList2_iter fn Y 0 none l₁ =
          Scene.ViewOrderList2_iter fn Y 0 none l₂) := by
  have htrans : ∀ a b c : Scene.Entity K,
      Scene.keyLe (Scene.projKey fn Y a) (Scene.projKey fn Y b) →
      Scene.keyLe (Scene.projKey fn Y b) (Scene.projKey fn Y c) →
      Scene.keyLe (Scene.projKey fn Y a) (Scene.projKey fn Y c) :=
    fun a b c => Scene.keyLe_trans _ _ _
  have htotal : ∀ a b : Scene.Entity K,
      Scene.keyLe (Scene.projKey fn Y a) (Scene.projKey fn Y b) ||
        Scene.keyLe (Scene.projKey fn Y b) (Scene.projKey fn Y a) :=
    fun a b => Scene.keyLe_total _ _
  refine ⟨?_, ?_, ?_⟩
  · intro start stop l
    simp [Scene.ViewOrderList2_iter, pySlice]
  · intro l k
    set p : Scene.Entity K → Bool := fun e => decide (Scene.projKey fn Y e = k)
      with hp
    have hmemk : ∀ a ∈ l.filter p, Scene.projKey fn Y a = k := by
      intro a ha
      have := List.of_mem_filter ha
      simpa [hp] using this
    have h1 : (l.filter p).Pairwise
        (fun a b => Scene.keyLe (Scene.projKey fn Y a) (Scene.projKey fn Y b)) := by
      apply List.pairwise_of_forall_mem_list
      intro a ha b hb
      rw [hmemk a ha, hmemk b hb]
      exact Scene.keyLe_refl k
    have h3 := List.sublist_mergeSort htrans htotal h1 (List.filter_sublist l)
    have h4 := h3.filter p
    have h4' : List.Sublist (l.filter p)
        ((l.mergeSort (fun a b => Scene.keyLe (Scene.projKey fn Y a)
          (Scene.projKey fn Y b))).filter p) := by
      simpa [List.filter_filter] using h4
    have h5 : ((l.mergeSort (fun a b => Scene.keyLe (Scene.projKey fn Y a)
        (Scene.projKey fn Y b))).filter p).Perm (l.filter p) :=
      (List.mergeSort_perm l _).filter p
    have h6 := h4'.eq_of_length h5.length_eq.symm
    simp only [Scene.ViewOrderList2_iter, pySlice, List.drop_zero]
    exact h6.symm
  · intro l₁ l₂ hperm hinj
    have hsorted₁ : (l₁.mergeSort (fun a b => Scene.keyLe (Scene.projKey fn Y a)
        (Scene.projKey fn Y b))).Pairwise
        (fun a b => Scene.keyLe (Scene.projKey fn Y a) (Scene.projKey fn Y b)) :=
      List.sorted_mergeSort htrans htotal l₁
    have hsorted₂ : (l₂.mergeSort (fun a b => Scene.keyLe (Scene.projKey fn Y a)
        (Scene.projKey fn Y b))).Pairwise
        (fun a b => Scene.keyLe (Scene.projKey fn Y a) (Scene.projKey fn Y b)) :=
      List.sorted_mergeSort htrans htotal l₂
    have hp : (l₁.mergeSort (fun a b => Scene.keyLe (Scene.projKey fn Y a)
        (Scene.projKey fn Y b))).Perm
        (l₂.mergeSort (fun a b => Scene.keyLe (Scene.projKey fn Y a)
          (Scene.projKey fn Y b))) :=
      (List.mergeSort_perm l₁ _).trans (hperm.trans (List.mergeSort_perm l₂ _).symm)
    have heq := Scene.eq_of_perm_of_sorted_of_antisymm _ _ _ hp hsorted₁ hsorted₂
      (fun a ha b hb hab hba =>
        hinj a ((List.mem_mergeSort).mp ha) b ((List.mem_mergeSort).mp hb)
          (Scene.keyLe_antisymm _ _ hab hba))
    simp only [Scene.ViewOrderList2_iter, pySlice, List.drop_zero]
    exact heq

/-- Claim C9, witness: with two distinct-key entities the two input orders
produce the same output. -/
theorem C9_view_order_stability_witness :
    Scene.ViewOrderList2_iter Scene.pyMean ((0 : ℚ), 0, -1) 0 none
        [⟨0, some [(0, 0, 0)]⟩, ⟨1, some [(0, 0, 1)]⟩] =
      Scene.ViewOrderList2_iter Scene.pyMean ((0 : ℚ), 0, -1) 0 none
        [⟨1, some [(0, 0, 1)]⟩, ⟨0, some [(0, 0, 0)]⟩] :=
  (C9_view_order_stability Scene.pyMean ((0 : ℚ), 0, -1)).2.2
    [⟨0, some [(0, 0, 0)]⟩, ⟨1, some [(0, 0, 1)]⟩]
    [⟨1, some [(0, 0, 1)]⟩, ⟨0, some [(0, 0, 0)]⟩]
    (List.Perm.swap _ _ _)
    (by
      intro a ha b hb hk
      have hka : Scene.projKey Scene.pyMean ((0 : ℚ), 0, -1)
          (⟨0, some [(0, 0, 0)]⟩ : Scene.Entity ℚ) = .fin 0 := by
        norm_num [Scene.projKey, Scene.pyMean, Scene.dot3]
      have hkb : Scene.projKey Scene.pyMean ((0 : ℚ), 0, -1)
          (⟨1, some [(0, 0, 1)]⟩ : Scene.Entity ℚ) = .fin (-1) := by
        norm_num [Scene.projKey, Scene.pyMean, Scene.dot3]
      rcases List.mem_cons.mp ha with rfl | ha2 <;>
        rcases List.mem_cons.mp hb with rfl | hb2
      · rfl
      · rw [List.mem_singleton.mp hb2] at hk ⊢
        rw [hka, hkb] at hk
        norm_num at hk
      · rw [List.mem_singleton.mp ha2] at hk ⊢
        rw [hka, hkb] at hk
        norm_num at hk
      · rw [List.mem_singleton.mp ha2, List.mem_singleton.mp hb2])

/-- Claim C6: evaluation at the failing input.  Finalizing an all-zero
buffer through the plain `wav` context manager divides every sample by the
zero peak (numpy 0/0, i.e. NaN — the buffer is NOT left unchanged), while
the `ffmpeg_wav` path's `if max_val != 0` guard correctly leaves the
all-zero buffer unchanged; `wav` normalizes (and faults) before the fade
windows are applied. -/
theorem C6_zero_peak_normalization :
    Audio.wavFinalize [0, 0, 0] = [none, none, none] ∧
      Audio.wavFinalize [0, 0, 0] ≠ ([0, 0, 0] : List ℚ).map some ∧
      Ctx.ffmpeg_wav_finalize [0, 0, 0] = [0, 0, 0] := by
  refine ⟨?_, ?_, ?_⟩
  · norm_num [Audio.wavFinalize, Audio.fade_in_outF, Audio.npMaxAbs,
      Audio.fdiv, List.mapIdx_cons, List.mapIdx_nil]
  · intro hcontra
    have : Audio.wavFinalize [0, 0, 0] = [none, none, none] := by
      norm_num [Audio.wavFinalize, Audio.fade_in_outF, Audio.npMaxAbs,
        Audio.fdiv, List.mapIdx_cons, List.mapIdx_nil]
    rw [this] at hcontra
    simp at hcontra
  · norm_num [Ctx.ffmpeg_wav_finalize, Audio.fade_in_out, Audio.npMaxAbs,
      List.mapIdx_cons, List.mapIdx_nil]

/-- Claim C10, counterexample: feeding an unsupported sample data type
(e.g. `complex128`) to `load_wav_file` does NOT raise to the caller: the
internal `ValueError` is caught by the function's own blanket `except`,
and the caller receives the placeholder `(None, None)`. -/
theorem C10_load_wav_counterexample :
    Audio.load_wav_file (.other "complex128") [1 / 2] 44100 =
        .returned none ∧
      Audio.raisesToCaller
        (Audio.load_wav_file (.other "complex128") [1 / 2] 44100) = false ∧
      Audio.convertAudio (.other "complex128") [1 / 2] =
        .error "Unsupported audio data type: complex128" :=
  ⟨rfl, rfl, rfl⟩

/-- Claim C10 (amended): indexing an `Element` with any key outside `0..2`
raises `IndexError("Index out of range")`; an unsupported sample data type
makes `load_wav_file` raise a descriptive `ValueError` internally, but its
blanket exception handler catches it, prints it, and returns the
`(None, None)` placeholder to the caller instead of propagating. -/
theorem C10_programmer_errors (e : Types.Element) (key : ℤ)
    (h : key < 0 ∨ 2 < key) (dn : String) (samples : List ℚ) (rate : ℕ) :
    Types.Element.getitem e key = .error "Index out of range" ∧
      Audio.convertAudio (.other dn) samples =
        .error ("Unsupported audio data type: " ++ dn) ∧
      Audio.load_wav_file (.other dn) samples rate = .returned none := by
  refine ⟨?_, rfl, rfl⟩
  unfold Types.Element.getitem
  rw [if_neg (by omega), if_neg (by omega), if_neg (by omega)]

/-- Claim C10, witness at key 5 and dtype `complex128`. -/
theorem C10_programmer_errors_witness :
    ((5 : ℤ) < 0 ∨ 2 < (5 : ℤ)) ∧
      (Types.Element.getitem ⟨"ball", 0, true⟩ 5 =
          .error "Index out of range" ∧
        Audio.convertAudio (.other "complex128") [1 / 2] =
          .error ("Unsupported audio data type: " ++ "complex128") ∧
        Audio.load_wav_file (.other "complex128") [1 / 2] 44100 =
          .returned none) :=
  ⟨by decide,
    C10_programmer_errors ⟨"ball", 0, true⟩ 5 (by decide) "complex128"
      [1 / 2] 44100⟩

/-- Claim C5, counterexample: `reverb` on the buffer `[1, 0, 0]` with
supplied decay `1/2` and a 1-sample delay produces `[1, 1/5, 1/25]`, not
the `[1, 1/2, 0]` the claim predicts: the supplied decay is overwritten by
the constant `0.2`, and index 2 receives the already-echoed value of index
1 again (feedback, not a single feed-forward echo). -/
theorem C5_reverb_counterexample :
    Audio.reverb [1, 0, 0] (1 / 20) (1 / 2) 20 = [1, 1 / 5, 1 / 25] ∧
      ([1, 1 / 5, 1 / 25] : List ℚ) ≠ [1, 1 / 2, 0] := by
  constructor
  · have hd : (pyInt ((20 : ℕ) * ((1 : ℚ) / 20))).toNat = 1 := by
      norm_num [pyInt]
    unfold Audio.reverb
    rw [hd]
    norm_num [Audio.reverbLoop, Audio.reverbStep, List.range_succ]
  · norm_num

/-- Claim C5 (amended): `reverb` ignores the supplied decay argument and
uses the fixed factor `0.2`; because the in-place update runs in increasing
index order, the delayed copy IS re-fed: the result `r` satisfies the
feedback recurrence `r[j] = old[j] + r[j - delay] * 0.2` for `delay ≤ j <
len` (and `r[j] = old[j]` below the delay), a recursive comb with a
geometrically decaying tail rather than a single echo. -/
theorem C5_reverb_feedback (b : List ℚ) (delay decay : ℚ) (rate : ℕ)
    (hd : 1 ≤ (pyInt (rate * delay)).toNat) :
    (Audio.reverb b delay decay rate).length = b.length ∧
      (∀ j < (pyInt (rate * delay)).toNat,
        Audio.at0 (Audio.reverb b delay decay rate) j = Audio.at0 b j) ∧
      (∀ j, (pyInt (rate * delay)).toNat ≤ j → j < b.length →
        Audio.at0 (Audio.reverb b delay decay rate) j =
          Audio.at0 b j +
            Audio.at0 (Audio.reverb b delay decay rate)
              (j - (pyInt (rate * delay)).toNat) * (1 / 5)) := by
  refine ⟨Audio.length_reverbLoop _ _ _ _, ?_, ?_⟩
  · intro j hj
    exact Audio.at0_reverbLoop_of_lt_delay _ _ _ _ _ hj
  · intro j hdj hjn
    set d := (pyInt (rate * delay)).toNat with hdef
    set n := b.length with hndef
    set i := j - d with hidef
    have hji : j = i + d := by omega
    have hin : i < n - d := by omega
    have h1 : Audio.at0 (Audio.reverb b delay decay rate) j =
        Audio.at0 (Audio.reverbLoop d (1 / 5) b (i + 1)) j := by
      unfold Audio.reverb
      exact Audio.at0_reverbLoop_stable d (1 / 5) b (i + 1) (n - d) j
        (by omega) (by omega)
    have h2 := Audio.at0_reverbLoop_step d (1 / 5) b i (by omega)
    have h3 : Audio.at0 (Audio.reverbLoop d (1 / 5) b i) (i + d) =
        Audio.at0 b (i + d) :=
      Audio.at0_reverbLoop_of_ge d (1 / 5) b i (i + d) (by omega)
    have h4 : Audio.at0 (Audio.reverb b delay decay rate) i =
        Audio.at0 (Audio.reverbLoop d (1 / 5) b i) i := by
      unfold Audio.reverb
      exact Audio.at0_reverbLoop_stable d (1 / 5) b i (n - d) i
        (by omega) (by omega)
    rw [h1, hji, h2, h3, h4]

/-- Claim C5, witness for the amended feedback recurrence at index 2 of the
buffer `[1, 0, 0]` with a 1-sample delay. -/
theorem C5_reverb_feedback_witness :
    1 ≤ (pyInt ((20 : ℕ) * ((1 : ℚ) / 20))).toNat ∧
      Audio.at0 (Audio.reverb [1, 0, 0] (1 / 20) (1 / 2) 20) 2 =
        Audio.at0 [1, 0, 0] 2 +
          Audio.at0 (Audio.reverb [1, 0, 0] (1 / 20) (1 / 2) 20)
            (2 - (pyInt ((20 : ℕ) * ((1 : ℚ) / 20))).toNat) * (1 / 5) :=
  ⟨by norm_num [pyInt],
    (C5_reverb_feedback [1, 0, 0] (1 / 20) (1 / 2) 20 (by norm_num [pyInt])).2.2 2
      (by norm_num [pyInt]) (by norm_num)⟩

/-- Claim C3, witness: two elements completing on steps 2 and 3; the first
element (id 0) is stepped exactly once in frame 2 (index 1), the frame on
which it completes. -/
theorem C3_element_lifecycle_witness :
    ((Frames.render_frames 4 [⟨0, 2, 0⟩, ⟨1, 3, 0⟩]).1.getD 1 []).count
        (Frames.PyElement.eid ⟨0, 2, 0⟩) =
      if 1 + 1 ≤ Frames.PyElement.stopAt ⟨0, 2, 0⟩ then 1 else 0 :=
  C3_element_lifecycle [⟨0, 2, 0⟩, ⟨1, 3, 0⟩] (by decide) (by decide) (by decide)
    ⟨0, 2, 0⟩ (by decide) 4 1 (by decide)

